import Mathlib

/-!
Verification of the mets-mcp baseball statistics server.

This file gives a shallow embedding, in Lean, of the data-normalization and
query core of the repository (src/server.ts and the data modules in
src/data/batting.ts), and proves or refutes the frozen claims about it.

Modelling conventions:
* JavaScript numbers are modelled as exact rationals (ℚ).  All source inputs
  are short decimal literals, and every arithmetic step of the source either
  operates on such values or immediately re-rounds with `toFixed`, so the
  rational semantics coincides with the intended float behaviour on the
  modelled domain.
* Because `Rat.add/sub/mul/div` are `@[irreducible]` in this toolchain, the
  embedding performs its arithmetic through executable `mkRat`-based helpers
  (`qsubInt`, `qmulInt`, `toFixed`, `jsRound`, ...).  Bridge theorems
  (`qsubInt_eq`, `qmulInt_eq`, `jsRound_eq_round`, `toFixed_eq`) prove that
  each helper equals the corresponding standard field operation, so concrete
  instances stay kernel-computable while general statements can be related to
  ordinary `+ - * / round` reasoning.
* The JS builtins `Number`, `String.prototype.trim/toLowerCase/toUpperCase/
  includes/replace` and `Math.trunc/round` are modelled by `jsNumber`,
  `jsTrim`, `jsToLower`, `jsToUpper`, `hasSubstr`, `removeFirst`, `jsTrunc`
  and `jsRound`; each model is documented at its definition.
* CSV parsing (the external csv-parse library) is out of scope: loaders take
  the list of already-parsed records, each record being the header/value
  pairs of one CSV row.
-/

set_option maxRecDepth 10000

/-- Model of `String.prototype.toLowerCase`: character-wise lowering
(faithful on the ASCII data this repository handles). -/
def jsToLower (s : String) : String := String.mk (s.data.map Char.toLower)

/-- Model of `String.prototype.toUpperCase`: character-wise uppering
(faithful on the ASCII data this repository handles). -/
def jsToUpper (s : String) : String := String.mk (s.data.map Char.toUpper)

/-- Model of `String.prototype.includes` on char lists: does `needle` occur
as a contiguous substring of the list? -/
def hasSubstr (needle : List Char) : List Char → Bool
  | [] => needle.isEmpty
  | c :: cs => needle.isPrefixOf (c :: cs) || hasSubstr needle cs

/-- The team-totals test used by every loader:
`(raw ?? "").toLowerCase().includes("team totals")`. -/
def isTeamTotal (s : String) : Bool :=
  hasSubstr "team totals".data (jsToLower s).data

/-- Whitespace predicate used by the `trim` model. -/
def wsp (c : Char) : Bool := c.isWhitespace

/-- Drop leading whitespace. -/
def dropLeading (l : List Char) : List Char := l.dropWhile wsp

/-- Drop trailing whitespace. -/
def dropTrailing (l : List Char) : List Char := (l.reverse.dropWhile wsp).reverse

/-- Drop whitespace from both ends. -/
def trimChars (l : List Char) : List Char := dropTrailing (dropLeading l)

/-- Model of `String.prototype.trim`. -/
def jsTrim (s : String) : String := String.mk (trimChars s.data)

/-- Model of `String.prototype.replace(pat, "")` with a single-character
pattern: removes the first occurrence of `c` (JS `replace` with a string
pattern replaces only the first occurrence). -/
def removeFirst (c : Char) : List Char → List Char
  | [] => []
  | x :: xs => if x = c then xs else x :: removeFirst c xs

/-- Value of a digit string, most significant digit first; `none` if any
character is not a decimal digit (the empty list has value 0). -/
def digitsVal : List Char → Option ℕ
  | [] => some 0
  | c :: cs =>
    if c.isDigit then (digitsVal cs).map (fun v => (c.toNat - 48) * 10 ^ cs.length + v)
    else none

/-- Model of the JS `Number(string)` builtin restricted to plain decimal
literals (optional leading minus sign, digits, optional decimal point and
fraction digits).  `none` models a non-finite parse (`NaN`); inputs outside
the plain-decimal grammar (exponents, hex, `Infinity`, inner whitespace) are
modelled as `none`, which is the branch every caller in the source treats as
unparsable. -/
def jsNumber (s : String) : Option ℚ :=
  let parts : List Char → Option (ℤ × ℕ) := fun cs =>
    match cs.splitOnP (fun c => c == '.') with
    | [ip] => if ip.isEmpty then none else (digitsVal ip).map (fun v => ((v : ℤ), 1))
    | [ip, fp] =>
      if ip.isEmpty && fp.isEmpty then none
      else
        match digitsVal ip, digitsVal fp with
        | some i, some f => some (((i : ℤ) * (10 : ℤ) ^ fp.length + (f : ℤ), (10 : ℕ) ^ fp.length))
        | _, _ => none
    | _ => none
  match s.data with
  | '-' :: cs => (parts cs).map (fun p => mkRat (-p.1) p.2)
  | cs => (parts cs).map (fun p => mkRat p.1 p.2)

/-- Executable `a * k` for a rational `a` and integer `k`
(kernel-computable, unlike `Rat.mul` which is irreducible here). -/
def qmulInt (a : ℚ) (k : ℤ) : ℚ := mkRat (a.num * k) a.den

/-- Executable `a - k` for a rational `a` and integer `k`. -/
def qsubInt (a : ℚ) (k : ℤ) : ℚ := mkRat (a.num - k * a.den) a.den

/-- Model of `Math.trunc`: rounding toward zero (truncating integer
division of numerator by denominator). -/
def jsTrunc (a : ℚ) : ℤ := a.num.tdiv a.den

/-- Model of `Math.round` (and of the rounding performed by `toFixed`):
`floor (a + 1/2)`, half-up toward positive infinity, exactly the JS
`Math.round` contract.  Computed via `Rat.floor` on an explicit fraction. -/
def jsRound (a : ℚ) : ℤ := Rat.floor (mkRat (2 * a.num + (a.den : ℤ)) (2 * a.den))

/-- Model of `Number.prototype.toFixed(k)` followed by re-parsing with
`Number(...)`: round to `k` decimal places. -/
def toFixed (k : ℕ) (a : ℚ) : ℚ := mkRat (jsRound (qmulInt a ((10 : ℤ) ^ k))) ((10 : ℕ) ^ k)

namespace Server

/-- `toNum` from src/server.ts: empty/missing input or a non-finite parse
yields `null`, otherwise the parsed number. -/
def toNum (v : Option String) : Option ℚ :=
  match v with
  | none => none
  | some s => if s = "" then none else jsNumber s

/-- `toPct` from src/server.ts: textually identical contract to `toNum`
(no scaling). -/
def toPct (v : Option String) : Option ℚ :=
  match v with
  | none => none
  | some s => if s = "" then none else jsNumber s

/-- Result record of `cleanPlayer`. -/
structure CleanedName where
  name : String
  bats : Option String
deriving DecidableEq

/-- `cleanPlayer` from src/server.ts: trims the raw name, reads the batting
marker (`*` → L, else `#` → S, else null), and produces the display name by
removing the first `*`, then the first `#`, then trimming again. -/
def cleanPlayer (raw : Option String) : CleanedName :=
  let s := jsTrim (raw.getD "")
  let bats : Option String :=
    if '*' ∈ s.data then some "L" else if '#' ∈ s.data then some "S" else none
  let name := jsTrim (String.mk (removeFirst '#' (removeFirst '*' s.data)))
  { name := name, bats := bats }

/-- Numeric core of `ipToOuts` from src/server.ts (applied after the
`Number(ipStr)` parse): truncate to whole innings, round the remaining
fraction to one decimal, and map `.1 → 1` out, `.2 → 2` outs, anything else
(including `.0`) → 0 outs. -/
def ipOutsOfNum (n : ℚ) : ℤ :=
  let whole := jsTrunc n
  let frac := toFixed 1 (qsubInt n whole)
  whole * 3 + (if frac = mkRat 1 10 then 1 else if frac = mkRat 2 10 then 2 else 0)

/-- `ipToOuts` from src/server.ts: falsy (missing/empty) input gives null,
non-finite parse gives null, otherwise the numeric conversion. -/
def ipToOuts (ipStr : Option String) : Option ℤ :=
  match ipStr with
  | none => none
  | some s =>
    if s = "" then none
    else
      match jsNumber s with
      | none => none
      | some n => some (ipOutsOfNum n)

/-- `outsToInningsFloat` from src/server.ts: `+(outs / 3).toFixed(3)`. -/
def outsToInningsFloat (outs : Option ℤ) : Option ℚ :=
  outs.map (fun o => toFixed 3 (mkRat o 3))

end Server

namespace DataPitching

/-- `toPct` from src/data (pitching module): identical contract to
`toNum` (values already decimals, no scaling). -/
def toPct (v : Option String) : Option ℚ :=
  match v with
  | none => none
  | some s => if s = "" then none else jsNumber s

/-- Numeric core of `ipToOuts` from src/data (pitching module): same
`.0/.1/.2` mapping as the server variant, but any other one-decimal
fraction falls back to rounding `(n - whole) * 3` to the nearest whole
number of outs instead of being treated as 0. -/
def ipOutsOfNum (n : ℚ) : ℤ :=
  let whole := jsTrunc n
  let frac := toFixed 1 (qsubInt n whole)
  if frac ∈ ([0, mkRat 1 10, mkRat 2 10] : List ℚ) then
    whole * 3 + (if frac = mkRat 1 10 then 1 else if frac = mkRat 2 10 then 2 else 0)
  else
    whole * 3 + jsRound (qmulInt (qsubInt n whole) 3)

/-- `ipToOuts` from src/data (pitching module), string level. -/
def ipToOuts (ipStr : Option String) : Option ℤ :=
  match ipStr with
  | none => none
  | some s =>
    if s = "" then none
    else
      match jsNumber s with
      | none => none
      | some n => some (ipOutsOfNum n)

end DataPitching

namespace DataBatting

/-- `toPct` from src/data/batting.ts: parses like `toNum`, but a finite
value `n` is returned unchanged only when `n > 1`; otherwise it is rounded
to three decimal places with `toFixed(3)`. -/
def toPct (v : Option String) : Option ℚ :=
  match v with
  | none => none
  | some s =>
    if s = "" then none
    else
      match jsNumber s with
      | none => none
      | some n => some (if 1 < n then n else toFixed 3 n)

/-- `splitPositions` from src/data/batting.ts: on a falsy (empty) input the
empty list, otherwise remove every `*`, split on each `/`, `D` or `H`
character, and drop the empty fragments. -/
def splitPositions (posRaw : String) : List String :=
  if posRaw = "" then []
  else
    (((posRaw.data.filter (fun c => !(c == '*'))).splitOnP
        (fun c => c == '/' || c == 'D' || c == 'H')).map String.mk).filter
      (fun s => !(s == ""))

end DataBatting

/-- One parsed CSV record: the header/value pairs of a row, in column order
(what the csv-parse library hands to the loaders). -/
abbrev RawRow := List (String × String)

/-- Reading a field of a JS object built by successive assignments: the last
assignment to a key wins, a never-assigned key reads as undefined. -/
def objGet (m : RawRow) (k : String) : Option String := m.reverse.lookup k

/-- The header-remapping loop shared by all loaders:
`m[keyMap[k] ?? k] = v` for each entry of the record. -/
def remapRow (keyMap : List (String × String)) (r : RawRow) : RawRow :=
  r.map (fun kv => ((keyMap.lookup kv.1).getD kv.1, kv.2))

/-- The `m["awards"] || null` normalization: empty or missing becomes null. -/
def strOrNull (v : Option String) : Option String :=
  v.bind (fun s => if s = "" then none else some s)

/-- The player-id normalization:
`m["player_id"] && m["player_id"] !== "-9999" ? m["player_id"] : null`. -/
def idOrNull (v : Option String) : Option String :=
  v.bind (fun s => if s = "" then none else if s = "-9999" then none else some s)

namespace Server

/-- The batting row type of src/server.ts (all numeric statistics nullable). -/
structure BattingRow where
  rk : Option ℚ
  player_raw : String
  player_name : String
  bats : Option String
  age : Option ℚ
  pos_raw : Option String
  (war g pa ab r h _2b _3b hr rbi sb cs bb so : Option ℚ)
  (ba obp slg ops ops_plus roba rbat_plus tb gidp hbp sh sf ibb : Option ℚ)
  awards : Option String
  player_id : Option String
deriving DecidableEq

/-- `battingKeyMap` from src/server.ts. -/
def battingKeyMap : List (String × String) :=
  [("Rk", "rk"), ("Player", "player_raw"), ("Age", "age"), ("Pos", "pos_raw"),
   ("WAR", "war"), ("G", "g"), ("PA", "pa"), ("AB", "ab"), ("R", "r"), ("H", "h"),
   ("2B", "_2b"), ("3B", "_3b"), ("HR", "hr"), ("RBI", "rbi"), ("SB", "sb"),
   ("CS", "cs"), ("BB", "bb"), ("SO", "so"), ("BA", "ba"), ("OBP", "obp"),
   ("SLG", "slg"), ("OPS", "ops"), ("OPS+", "ops_plus"), ("rOBA", "roba"),
   ("Rbat+", "rbat_plus"), ("TB", "tb"), ("GIDP", "gidp"), ("HBP", "hbp"),
   ("SH", "sh"), ("SF", "sf"), ("IBB", "ibb"), ("Awards", "awards"),
   ("Player-additional", "player_id")]

/-- Build one batting row from a remapped record (the push body of
`loadBattingCSV` in src/server.ts). -/
def mkBattingRow (m : RawRow) : BattingRow :=
  let cleaned := cleanPlayer (objGet m "player_raw")
  { rk := toNum (objGet m "rk")
    player_raw := (objGet m "player_raw").getD ""
    player_name := cleaned.name
    bats := cleaned.bats
    age := toNum (objGet m "age")
    pos_raw := objGet m "pos_raw"
    war := toNum (objGet m "war")
    g := toNum (objGet m "g")
    pa := toNum (objGet m "pa")
    ab := toNum (objGet m "ab")
    r := toNum (objGet m "r")
    h := toNum (objGet m "h")
    _2b := toNum (objGet m "_2b")
    _3b := toNum (objGet m "_3b")
    hr := toNum (objGet m "hr")
    rbi := toNum (objGet m "rbi")
    sb := toNum (objGet m "sb")
    cs := toNum (objGet m "cs")
    bb := toNum (objGet m "bb")
    so := toNum (objGet m "so")
    ba := toPct (objGet m "ba")
    obp := toPct (objGet m "obp")
    slg := toPct (objGet m "slg")
    ops := toPct (objGet m "ops")
    ops_plus := toNum (objGet m "ops_plus")
    roba := toPct (objGet m "roba")
    rbat_plus := toNum (objGet m "rbat_plus")
    tb := toNum (objGet m "tb")
    gidp := toNum (objGet m "gidp")
    hbp := toNum (objGet m "hbp")
    sh := toNum (objGet m "sh")
    sf := toNum (objGet m "sf")
    ibb := toNum (objGet m "ibb")
    awards := strOrNull (objGet m "awards")
    player_id := idOrNull (objGet m "player_id") }

/-- `loadBattingCSV` from src/server.ts, taking the parsed records: remap the
headers, skip team-totals rows, normalize every field. -/
def loadBattingCSV (rows : List RawRow) : List BattingRow :=
  rows.filterMap (fun rec =>
    let m := remapRow battingKeyMap rec
    if isTeamTotal ((objGet m "player_raw").getD "") then none
    else some (mkBattingRow m))

/-- The pitching row type of src/server.ts. -/
structure PitchingRow where
  rk : Option ℚ
  player_raw : String
  player_name : String
  bats : Option String
  age : Option ℚ
  pos_raw : Option String
  (war w l wl_pct era g gs gf cg sho sv : Option ℚ)
  ip_outs : Option ℤ
  ip : Option ℚ
  (h r er hr bb ibb so hbp bk wp bf : Option ℚ)
  (era_plus fip whip h9 hr9 bb9 so9 so_per_bb : Option ℚ)
  awards : Option String
  player_id : Option String
deriving DecidableEq

/-- `pitchingKeyMap` from src/server.ts. -/
def pitchingKeyMap : List (String × String) :=
  [("Rk", "rk"), ("Player", "player_raw"), ("Age", "age"), ("Pos", "pos_raw"),
   ("WAR", "war"), ("W", "w"), ("L", "l"), ("W-L%", "wl_pct"), ("ERA", "era"),
   ("G", "g"), ("GS", "gs"), ("GF", "gf"), ("CG", "cg"), ("SHO", "sho"),
   ("SV", "sv"), ("IP", "ip_csv"), ("H", "h"), ("R", "r"), ("ER", "er"),
   ("HR", "hr"), ("BB", "bb"), ("IBB", "ibb"), ("SO", "so"), ("HBP", "hbp"),
   ("BK", "bk"), ("WP", "wp"), ("BF", "bf"), ("ERA+", "era_plus"),
   ("FIP", "fip"), ("WHIP", "whip"), ("H9", "h9"), ("HR9", "hr9"),
   ("BB9", "bb9"), ("SO9", "so9"), ("SO/BB", "so_per_bb"), ("Awards", "awards"),
   ("Player-additional", "player_id")]

/-- Build one pitching row from a remapped record. -/
def mkPitchingRow (m : RawRow) : PitchingRow :=
  let cleaned := cleanPlayer (objGet m "player_raw")
  let ip_outs := ipToOuts (objGet m "ip_csv")
  { rk := toNum (objGet m "rk")
    player_raw := (objGet m "player_raw").getD ""
    player_name := cleaned.name
    bats := cleaned.bats
    age := toNum (objGet m "age")
    pos_raw := objGet m "pos_raw"
    war := toNum (objGet m "war")
    w := toNum (objGet m "w")
    l := toNum (objGet m "l")
    wl_pct := toPct (objGet m "wl_pct")
    era := toNum (objGet m "era")
    g := toNum (objGet m "g")
    gs := toNum (objGet m "gs")
    gf := toNum (objGet m "gf")
    cg := toNum (objGet m "cg")
    sho := toNum (objGet m "sho")
    sv := toNum (objGet m "sv")
    ip_outs := ip_outs
    ip := outsToInningsFloat ip_outs
    h := toNum (objGet m "h")
    r := toNum (objGet m "r")
    er := toNum (objGet m "er")
    hr := toNum (objGet m "hr")
    bb := toNum (objGet m "bb")
    ibb := toNum (objGet m "ibb")
    so := toNum (objGet m "so")
    hbp := toNum (objGet m "hbp")
    bk := toNum (objGet m "bk")
    wp := toNum (objGet m "wp")
    bf := toNum (objGet m "bf")
    era_plus := toNum (objGet m "era_plus")
    fip := toNum (objGet m "fip")
    whip := toNum (objGet m "whip")
    h9 := toNum (objGet m "h9")
    hr9 := toNum (objGet m "hr9")
    bb9 := toNum (objGet m "bb9")
    so9 := toNum (objGet m "so9")
    so_per_bb := toNum (objGet m "so_per_bb")
    awards := strOrNull (objGet m "awards")
    player_id := idOrNull (objGet m "player_id") }

/-- `loadPitchingCSV` from src/server.ts, at the parsed-record level. -/
def loadPitchingCSV (rows : List RawRow) : List PitchingRow :=
  rows.filterMap (fun rec =>
    let m := remapRow pitchingKeyMap rec
    if isTeamTotal ((objGet m "player_raw").getD "") then none
    else some (mkPitchingRow m))

/-- `BattingRow & { team }` from src/server.ts. -/
structure BattingWithTeam extends BattingRow where
  team : String
deriving DecidableEq

/-- `PitchingRow & { team }` from src/server.ts. -/
structure PitchingWithTeam extends PitchingRow where
  team : String
deriving DecidableEq

/-- The `.map((r) => ({ ...r, team }))` tagging step of `loadSeasonTeams`. -/
def tagTeamB (t : String) (rows : List BattingRow) : List BattingWithTeam :=
  rows.map (fun r => { toBattingRow := r, team := t })

/-- Team tagging for pitching rows. -/
def tagTeamP (t : String) (rows : List PitchingRow) : List PitchingWithTeam :=
  rows.map (fun r => { toPitchingRow := r, team := t })

/-- `metricAliases` from src/server.ts. -/
def metricAliases : List (String × String) :=
  [("OPS+", "ops_plus"), ("ops+", "ops_plus"), ("OPS_plus", "ops_plus"),
   ("OPS", "ops"), ("ops", "ops"), ("BA", "ba"), ("OBP", "obp"), ("SLG", "slg"),
   ("Rbat+", "rbat_plus"), ("rbat+", "rbat_plus"), ("2B", "_2b"), ("3B", "_3b"),
   ("SO", "so"), ("BB", "bb"), ("TB", "tb"), ("rOBA", "roba"), ("ROBA", "roba"),
   ("W-L%", "wl_pct"), ("w-l%", "wl_pct"), ("wl%", "wl_pct"),
   ("ERA+", "era_plus"), ("era+", "era_plus"), ("SO/BB", "so_per_bb"),
   ("K/BB", "so_per_bb"), ("k/bb", "so_per_bb"), ("SO9", "so9"), ("K9", "so9"),
   ("BB9", "bb9"), ("HR9", "hr9"), ("H9", "h9"), ("IP", "ip"),
   ("ip_csv", "ip"), ("WHIP", "whip"), ("FIP", "fip"), ("ERA", "era"),
   ("BF", "bf")]

/-- `normalizeMetric` from src/server.ts:
`metricAliases[m] ?? metricAliases[m.toUpperCase()] ?? m`.  A total function:
every lookup miss falls through to the token itself. -/
def normalizeMetric (m : String) : String :=
  match metricAliases.lookup m with
  | some v => v
  | none =>
    match metricAliases.lookup (jsToUpper m) with
    | some v => v
    | none => m

/-- `direction` argument of the leaderboard tool. -/
inductive Direction
  | asc
  | desc
deriving DecidableEq

/-- `qualifier` argument of the leaderboard tool. -/
structure Qualifier where
  minPA : Option ℚ
  minIP : Option ℚ
deriving DecidableEq

/-- The dynamic field read `r[key]` of the leaderboard handler, for the
numeric statistic fields of a batting row.  Keys naming non-numeric fields
(names, ids, awards) are not rankable metrics and are modelled as absent. -/
def metricGetB (key : String) (r : BattingWithTeam) : Option ℚ :=
  match key with
  | "rk" => r.rk
  | "age" => r.age
  | "war" => r.war
  | "g" => r.g
  | "pa" => r.pa
  | "ab" => r.ab
  | "r" => r.r
  | "h" => r.h
  | "_2b" => r._2b
  | "_3b" => r._3b
  | "hr" => r.hr
  | "rbi" => r.rbi
  | "sb" => r.sb
  | "cs" => r.cs
  | "bb" => r.bb
  | "so" => r.so
  | "ba" => r.ba
  | "obp" => r.obp
  | "slg" => r.slg
  | "ops" => r.ops
  | "ops_plus" => r.ops_plus
  | "roba" => r.roba
  | "rbat_plus" => r.rbat_plus
  | "tb" => r.tb
  | "gidp" => r.gidp
  | "hbp" => r.hbp
  | "sh" => r.sh
  | "sf" => r.sf
  | "ibb" => r.ibb
  | _ => none

/-- The numeric batting field names servable as leaderboard metrics
(the domain of `metricGetB`). -/
def battingNumericKeys : List String :=
  ["rk", "age", "war", "g", "pa", "ab", "r", "h", "_2b", "_3b", "hr", "rbi",
   "sb", "cs", "bb", "so", "ba", "obp", "slg", "ops", "ops_plus", "roba",
   "rbat_plus", "tb", "gidp", "hbp", "sh", "sf", "ibb"]

/-- The dynamic field read `r[key]` for the numeric statistic fields of a
pitching row. -/
def metricGetP (key : String) (r : PitchingWithTeam) : Option ℚ :=
  match key with
  | "rk" => r.rk
  | "age" => r.age
  | "war" => r.war
  | "w" => r.w
  | "l" => r.l
  | "wl_pct" => r.wl_pct
  | "era" => r.era
  | "g" => r.g
  | "gs" => r.gs
  | "gf" => r.gf
  | "cg" => r.cg
  | "sho" => r.sho
  | "sv" => r.sv
  | "ip_outs" => (r.ip_outs).map (fun z => mkRat z 1)
  | "ip" => r.ip
  | "h" => r.h
  | "r" => r.r
  | "er" => r.er
  | "hr" => r.hr
  | "bb" => r.bb
  | "ibb" => r.ibb
  | "so" => r.so
  | "hbp" => r.hbp
  | "bk" => r.bk
  | "wp" => r.wp
  | "bf" => r.bf
  | "era_plus" => r.era_plus
  | "fip" => r.fip
  | "whip" => r.whip
  | "h9" => r.h9
  | "hr9" => r.hr9
  | "bb9" => r.bb9
  | "so9" => r.so9
  | "so_per_bb" => r.so_per_bb
  | _ => none

/-- The batting qualifier filter of the leaderboard handler:
`if (table === "batting" && qualifier?.minPA) return (r.pa ?? 0) >= qualifier.minPA`,
falling through to `true`.  A `minPA` of 0 is falsy in JS, so it disables the
filter. -/
def qualFilterB (qual : Option Qualifier) (r : BattingWithTeam) : Bool :=
  match qual with
  | none => true
  | some q =>
    match q.minPA with
    | none => true
    | some v => if v = 0 then true else decide (v ≤ r.pa.getD 0)

/-- The pitching qualifier filter: `(r.ip ?? 0) >= qualifier.minIP` when
`minIP` is truthy. -/
def qualFilterP (qual : Option Qualifier) (r : PitchingWithTeam) : Bool :=
  match qual with
  | none => true
  | some q =>
    match q.minIP with
    | none => true
    | some v => if v = 0 then true else decide (v ≤ r.ip.getD 0)

/-- The sort key of the leaderboard comparator (after the null filter every
compared value is present, so the `?? ±Infinity` fallback of the source is
dead code; absent reads are given a default that is never consulted). -/
def sortValB (key : String) (r : BattingWithTeam) : ℚ :=
  (metricGetB key r).getD 0

/-- The ordering realized by the leaderboard comparator
`direction === "asc" ? av - bv : bv - av` on batting rows. -/
def sortRelB (dir : Direction) (key : String) (a b : BattingWithTeam) : Prop :=
  match dir with
  | .asc => sortValB key a ≤ sortValB key b
  | .desc => sortValB key b ≤ sortValB key a

instance sortRelBDec (dir : Direction) (key : String) : DecidableRel (sortRelB dir key) :=
  fun a b =>
    match dir with
    | .asc => inferInstanceAs (Decidable (sortValB key a ≤ sortValB key b))
    | .desc => inferInstanceAs (Decidable (sortValB key b ≤ sortValB key a))

instance sortRelBTotal (dir : Direction) (key : String) : IsTotal BattingWithTeam (sortRelB dir key) :=
  ⟨fun a b => by cases dir <;> exact le_total _ _⟩

instance sortRelBTrans (dir : Direction) (key : String) : IsTrans BattingWithTeam (sortRelB dir key) :=
  ⟨fun a b c hab hbc => by
    cases dir
    · exact le_trans hab hbc
    · exact le_trans hbc hab⟩

/-- Pitching sort key. -/
def sortValP (key : String) (r : PitchingWithTeam) : ℚ :=
  (metricGetP key r).getD 0

/-- Pitching comparator ordering. -/
def sortRelP (dir : Direction) (key : String) (a b : PitchingWithTeam) : Prop :=
  match dir with
  | .asc => sortValP key a ≤ sortValP key b
  | .desc => sortValP key b ≤ sortValP key a

instance sortRelPDec (dir : Direction) (key : String) : DecidableRel (sortRelP dir key) :=
  fun a b =>
    match dir with
    | .asc => inferInstanceAs (Decidable (sortValP key a ≤ sortValP key b))
    | .desc => inferInstanceAs (Decidable (sortValP key b ≤ sortValP key a))

instance sortRelPTotal (dir : Direction) (key : String) : IsTotal PitchingWithTeam (sortRelP dir key) :=
  ⟨fun a b => by cases dir <;> exact le_total _ _⟩

instance sortRelPTrans (dir : Direction) (key : String) : IsTrans PitchingWithTeam (sortRelP dir key) :=
  ⟨fun a b c hab hbc => by
    cases dir
    · exact le_trans hab hbc
    · exact le_trans hbc hab⟩

/-- The row-selection pipeline of the batting leaderboard handler
(src/server.ts): qualifier filter, discard rows whose resolved metric is
null, sort by the comparator (JS sort is stable; modelled by the stable
insertion sort), truncate to `limit`.  Returns the selected source rows,
before output shaping. -/
def leaderboardSelectB (data : List BattingWithTeam) (metric : String)
    (dir : Direction) (limit : ℕ) (qual : Option Qualifier) : List BattingWithTeam :=
  let key := normalizeMetric metric
  let qualified := data.filter (qualFilterB qual)
  let ranked := qualified.filter (fun r => (metricGetB key r).isSome)
  (List.insertionSort (sortRelB dir key) ranked).take limit

/-- One output row of the leaderboard:
`{ team, player, [key]: r[key], PA: r.pa }` (`value` holds the dynamic
`[key]` entry). -/
structure LBRowB where
  team : String
  player : String
  value : Option ℚ
  pa : Option ℚ
deriving DecidableEq

/-- The batting leaderboard rows as returned to the caller. -/
def leaderboardB (data : List BattingWithTeam) (metric : String)
    (dir : Direction) (limit : ℕ) (qual : Option Qualifier) : List LBRowB :=
  (leaderboardSelectB data metric dir limit qual).map (fun r =>
    { team := r.team, player := r.player_name,
      value := metricGetB (normalizeMetric metric) r, pa := r.pa })

/-- The structured output of the leaderboard tool.  The handler returns the
object `{ rows }`; `warnings` models the optional warnings key of the output
object, which the source never emits. -/
structure LeaderboardOutput where
  rows : List LBRowB
  warnings : Option (List String)
deriving DecidableEq

/-- The full batting leaderboard output object. -/
def leaderboardOutputB (data : List BattingWithTeam) (metric : String)
    (dir : Direction) (limit : ℕ) (qual : Option Qualifier) : LeaderboardOutput :=
  { rows := leaderboardB data metric dir limit qual, warnings := none }

/-- Pitching leaderboard selection pipeline. -/
def leaderboardSelectP (data : List PitchingWithTeam) (metric : String)
    (dir : Direction) (limit : ℕ) (qual : Option Qualifier) : List PitchingWithTeam :=
  let key := normalizeMetric metric
  let qualified := data.filter (qualFilterP qual)
  let ranked := qualified.filter (fun r => (metricGetP key r).isSome)
  (List.insertionSort (sortRelP dir key) ranked).take limit

/-- The row selection of `get_player_stats` on batting data: rows whose
cleaned name matches `player` case-insensitively, then the optional
exact-match filters (abstracted as a row predicate). -/
def playerStatsSelectB (data : List BattingWithTeam) (player : String)
    (filt : BattingWithTeam → Bool) : List BattingWithTeam :=
  (data.filter (fun r => jsToLower r.player_name == jsToLower player)).filter filt

/-- The row selection of `get_player_stats` on pitching data. -/
def playerStatsSelectP (data : List PitchingWithTeam) (player : String)
    (filt : PitchingWithTeam → Bool) : List PitchingWithTeam :=
  (data.filter (fun r => jsToLower r.player_name == jsToLower player)).filter filt

end Server

namespace DataBatting

/-- `cleanPlayer` from src/data/batting.ts: same markers as the server
variant, but the raw string is not pre-trimmed (the final result is
identical; the difference is kept for fidelity). -/
def cleanPlayer (raw : String) : Server.CleanedName :=
  if raw = "" then { name := "", bats := none }
  else
    { name := jsTrim (String.mk (removeFirst '#' (removeFirst '*' raw.data)))
      bats :=
        if '*' ∈ raw.data then some "L"
        else if '#' ∈ raw.data then some "S" else none }

/-- `toNum` from src/data/batting.ts (same contract as the server's). -/
def toNum (v : Option String) : Option ℚ :=
  match v with
  | none => none
  | some s => if s = "" then none else jsNumber s

/-- The batting row type of src/data/batting.ts: additionally carries the
parsed `positions` list and the `is_team_total` flag. -/
structure BattingRow where
  rk : Option ℚ
  player_raw : String
  player_name : String
  bats : Option String
  age : Option ℚ
  pos_raw : String
  positions : List String
  (war g pa ab r h _2b _3b hr rbi sb cs bb so : Option ℚ)
  (ba obp slg ops ops_plus roba rbat_plus tb gidp hbp sh sf ibb : Option ℚ)
  awards : Option String
  player_id : Option String
  is_team_total : Bool
deriving DecidableEq

/-- Build one row of the data-module batting loader from a remapped
record (the `keyMap` of that module is identical to the server's
`battingKeyMap`). -/
def mkBattingRow (m : RawRow) : BattingRow :=
  let cleaned := cleanPlayer ((objGet m "player_raw").getD "")
  { rk := toNum (objGet m "rk")
    player_raw := (objGet m "player_raw").getD ""
    player_name := cleaned.name
    bats := cleaned.bats
    age := toNum (objGet m "age")
    pos_raw := (objGet m "pos_raw").getD ""
    positions := splitPositions ((objGet m "pos_raw").getD "")
    war := toNum (objGet m "war")
    g := toNum (objGet m "g")
    pa := toNum (objGet m "pa")
    ab := toNum (objGet m "ab")
    r := toNum (objGet m "r")
    h := toNum (objGet m "h")
    _2b := toNum (objGet m "_2b")
    _3b := toNum (objGet m "_3b")
    hr := toNum (objGet m "hr")
    rbi := toNum (objGet m "rbi")
    sb := toNum (objGet m "sb")
    cs := toNum (objGet m "cs")
    bb := toNum (objGet m "bb")
    so := toNum (objGet m "so")
    ba := toPct (objGet m "ba")
    obp := toPct (objGet m "obp")
    slg := toPct (objGet m "slg")
    ops := toPct (objGet m "ops")
    ops_plus := toNum (objGet m "ops_plus")
    roba := toPct (objGet m "roba")
    rbat_plus := toNum (objGet m "rbat_plus")
    tb := toNum (objGet m "tb")
    gidp := toNum (objGet m "gidp")
    hbp := toNum (objGet m "hbp")
    sh := toNum (objGet m "sh")
    sf := toNum (objGet m "sf")
    ibb := toNum (objGet m "ibb")
    awards := strOrNull (objGet m "awards")
    player_id := idOrNull (objGet m "player_id")
    is_team_total := isTeamTotal ((objGet m "player_raw").getD "") }

/-- `loadBattingCSV` from src/data/batting.ts: map every record to a row,
then drop the rows flagged as team totals. -/
def loadBattingCSV (rows : List RawRow) : List BattingRow :=
  (rows.map (fun rec => mkBattingRow (remapRow Server.battingKeyMap rec))).filter
    (fun r => !r.is_team_total)

end DataBatting

/-- Modelled from the spec: §4.5 `parseQuery`.  The query-side position
resolver is not present under src (no revision there accepts a `position`
argument); this follows the spec's synonym table for the group expansions
`"OF"/"outfield"` → {LF,CF,RF} and `"IF"/"infield"` → {1B,2B,3B,SS},
case/space-insensitively, with unrecognized input treated as an
already-canonical single target.  The utility-predicate mode of §4.5 is not
modelled (no settled claim mentions it). -/
def positionTargets (term : String) : List String :=
  let t := String.mk ((jsToUpper term).data.filter (fun c => !(c == ' ')))
  if t = "OF" ∨ t = "OUTFIELD" then ["LF", "CF", "RF"]
  else if t = "IF" ∨ t = "INFIELD" then ["1B", "2B", "3B", "SS"]
  else [t]

/-- Modelled from the spec: §4.5/§4.6 row predicate for a position query —
a row matches when the positions parsed from its raw position string
(src's `splitPositions`) meet the query's target set. -/
def positionMatches (term : String) (r : Server.BattingWithTeam) : Bool :=
  (DataBatting.splitPositions (r.pos_raw.getD "")).any
    (fun p => (positionTargets term).contains p)

/-- Modelled from the spec: §4.6 batting leaderboard with the optional
`position` argument — the src selection pipeline with the position
predicate applied between the qualifier filter and the null-metric
discard, as §4.6 orders the steps. -/
def leaderboardSelectBPos (data : List Server.BattingWithTeam) (metric : String)
    (dir : Server.Direction) (limit : ℕ) (qual : Option Server.Qualifier)
    (position : Option String) : List Server.BattingWithTeam :=
  let key := Server.normalizeMetric metric
  let qualified := data.filter (Server.qualFilterB qual)
  let positioned :=
    match position with
    | none => qualified
    | some t => qualified.filter (positionMatches t)
  let ranked := positioned.filter (fun r => (Server.metricGetB key r).isSome)
  (List.insertionSort (Server.sortRelB dir key) ranked).take limit

/-- A batting row with every field absent, used to build concrete sample
rows for witnesses. -/
def blankBattingRow : Server.BattingRow :=
  { rk := none, player_raw := "", player_name := "", bats := none, age := none,
    pos_raw := none, war := none, g := none, pa := none, ab := none, r := none,
    h := none, _2b := none, _3b := none, hr := none, rbi := none, sb := none,
    cs := none, bb := none, so := none, ba := none, obp := none, slg := none,
    ops := none, ops_plus := none, roba := none, rbat_plus := none, tb := none,
    gidp := none, hbp := none, sh := none, sf := none, ibb := none,
    awards := none, player_id := none }

/-- Base fields of the first sample row. -/
def demoRowABase : Server.BattingRow :=
  { blankBattingRow with
    player_name := "Alpha"
    pa := some 650
    ops_plus := some 171
    pos_raw := some "2B" }

/-- Sample row: a qualified second baseman with a high adjusted OPS. -/
def demoRowA : Server.BattingWithTeam :=
  { toBattingRow := demoRowABase, team := "NYM" }

/-- Base fields of the second sample row. -/
def demoRowBBase : Server.BattingRow :=
  { blankBattingRow with
    player_name := "Beta"
    pa := some 520
    ops_plus := some 140
    pos_raw := some "LF" }

/-- Sample row: a qualified outfielder with a lower adjusted OPS. -/
def demoRowB : Server.BattingWithTeam :=
  { toBattingRow := demoRowBBase, team := "NYM" }

/-- Base fields of the third sample row. -/
def demoRowCBase : Server.BattingRow :=
  { blankBattingRow with
    player_name := "Gamma"
    pa := some 100
    ops_plus := some 200 }

/-- Sample row: a high-OPS part-timer that fails a 400 PA qualifier. -/
def demoRowC : Server.BattingWithTeam :=
  { toBattingRow := demoRowCBase, team := "NYM" }

/-- Sample dataset, deliberately not sorted by any metric. -/
def demoBatting : List Server.BattingWithTeam := [demoRowB, demoRowC, demoRowA]

/-- The transformation the player-marker claim describes for the name: all
occurrences of the literal characters `*` and `#` removed, surrounding
whitespace trimmed.  Stated from the claim's words, for comparison with the
source's `cleanPlayer` (which removes only the first occurrence of each). -/
def stripAllMarkers (s : String) : String :=
  String.mk (trimChars (s.data.filter (fun c => !(c == '*') && !(c == '#'))))

/-! Bridge theorems: each executable arithmetic helper equals the standard
field operation it models. -/

theorem ratFloor_eq_floor (q : ℚ) : Rat.floor q = ⌊q⌋ :=
  le_antisymm (Int.le_floor.mpr (Rat.le_floor.mp (le_refl _)))
    (Rat.le_floor.mpr (Int.floor_le q))

theorem mkRat_eq_div (n : ℤ) (d : ℕ) : (mkRat n d : ℚ) = (n : ℚ) / (d : ℚ) := by
  rw [Rat.mkRat_eq_divInt, Rat.divInt_eq_div]
  push_cast
  rfl

theorem qmulInt_eq (a : ℚ) (k : ℤ) : qmulInt a k = a * k := by
  rw [qmulInt, mkRat_eq_div]
  push_cast
  rw [mul_div_right_comm, Rat.num_div_den]

theorem qsubInt_eq (a : ℚ) (k : ℤ) : qsubInt a k = a - k := by
  have hden : ((a.den : ℚ)) ≠ 0 := by
    exact_mod_cast a.den_nz
  rw [qsubInt, mkRat_eq_div]
  push_cast
  rw [sub_div, Rat.num_div_den, mul_div_assoc, div_self hden, mul_one]

theorem jsRound_eq_round (a : ℚ) : jsRound a = round a := by
  have hden : ((a.den : ℚ)) ≠ 0 := by
    exact_mod_cast a.den_nz
  have hnum : ((a.num : ℚ)) = a * a.den := (div_eq_iff hden).mp (Rat.num_div_den a)
  have hval : (mkRat (2 * a.num + (a.den : ℤ)) (2 * a.den) : ℚ) = a + 1 / 2 := by
    rw [mkRat_eq_div]
    push_cast
    field_simp
    rw [hnum]
    ring
  rw [jsRound, ratFloor_eq_floor, hval, round_eq]

theorem toFixed_eq (k : ℕ) (a : ℚ) : toFixed k a = ((round (a * 10 ^ k) : ℤ) : ℚ) / 10 ^ k := by
  rw [toFixed, mkRat_eq_div, jsRound_eq_round, qmulInt_eq]
  push_cast
  rfl

/-! Alias-table helper lemmas. -/

theorem lookup_mem (k v : String) :
    ∀ l : List (String × String), l.lookup k = some v → (k, v) ∈ l := by
  intro l
  induction l with
  | nil => intro h; simp [List.lookup] at h
  | cons p t ih =>
    obtain ⟨k1, v1⟩ := p
    intro h
    cases hbeq : (k == k1) with
    | true =>
      have hk : k = k1 := by simpa using hbeq
      have hv : v1 = v := by simpa [List.lookup, hbeq] using h
      subst hk
      subst hv
      exact List.mem_cons_self _ _
    | false =>
      have ht : t.lookup k = some v := by simpa [List.lookup, hbeq] using h
      exact List.mem_cons_of_mem _ (ih ht)

theorem aliasValuesFixed :
    ∀ p ∈ Server.metricAliases, Server.normalizeMetric p.2 = p.2 := by decide

/-- C2: the innings-pitched parser maps "168.2" to 506 outs with decimal
innings 168.667, "168.1" to 505 with 168.333, and "168.0" to 504 with 168.0;
in general, whenever the fraction rounded to one decimal is .0, .1 or .2,
total outs = whole × 3 + (1 for .1, 2 for .2, 0 otherwise), the data-module
parser agrees with the server parser there, and the decimal innings value is
outs / 3 rounded to three decimals. -/
theorem c2_parse_innings :
    (Server.ipToOuts (some "168.2") = some 506
      ∧ Server.outsToInningsFloat (Server.ipToOuts (some "168.2")) = some (mkRat 168667 1000))
    ∧ (Server.ipToOuts (some "168.1") = some 505
      ∧ Server.outsToInningsFloat (Server.ipToOuts (some "168.1")) = some (mkRat 168333 1000))
    ∧ (Server.ipToOuts (some "168.0") = some 504
      ∧ Server.outsToInningsFloat (Server.ipToOuts (some "168.0")) = some 168)
    ∧ ∀ n : ℚ, toFixed 1 (qsubInt n (jsTrunc n)) ∈ ([0, mkRat 1 10, mkRat 2 10] : List ℚ) →
        Server.ipOutsOfNum n = jsTrunc n * 3 +
            (if toFixed 1 (qsubInt n (jsTrunc n)) = mkRat 1 10 then 1
             else if toFixed 1 (qsubInt n (jsTrunc n)) = mkRat 2 10 then 2 else 0)
          ∧ DataPitching.ipOutsOfNum n = Server.ipOutsOfNum n
          ∧ Server.outsToInningsFloat (some (Server.ipOutsOfNum n)) =
              some (toFixed 3 (mkRat (Server.ipOutsOfNum n) 3)) := by
  refine ⟨⟨by decide, by decide⟩, ⟨by decide, by decide⟩, ⟨by decide, by decide⟩, ?_⟩
  intro n h
  refine ⟨rfl, ?_, rfl⟩
  simp only [DataPitching.ipOutsOfNum, Server.ipOutsOfNum]
  rw [if_pos h]

/-- Witness for C2: the input 4.1 satisfies the rounded-fraction hypothesis
and the parser equations hold for it. -/
theorem c2_parse_innings_witness :
    toFixed 1 (qsubInt (mkRat 41 10) (jsTrunc (mkRat 41 10))) ∈ ([0, mkRat 1 10, mkRat 2 10] : List ℚ)
    ∧ (Server.ipOutsOfNum (mkRat 41 10) = jsTrunc (mkRat 41 10) * 3 +
          (if toFixed 1 (qsubInt (mkRat 41 10) (jsTrunc (mkRat 41 10))) = mkRat 1 10 then 1
           else if toFixed 1 (qsubInt (mkRat 41 10) (jsTrunc (mkRat 41 10))) = mkRat 2 10 then 2 else 0)
        ∧ DataPitching.ipOutsOfNum (mkRat 41 10) = Server.ipOutsOfNum (mkRat 41 10)
        ∧ Server.outsToInningsFloat (some (Server.ipOutsOfNum (mkRat 41 10))) =
            some (toFixed 3 (mkRat (Server.ipOutsOfNum (mkRat 41 10)) 3))) :=
  ⟨by decide, c2_parse_innings.2.2.2 (mkRat 41 10) (by decide)⟩

/-- C3 counterexample: at the numeric input 5.5 (fraction .5, outside
{.0,.1,.2}) the server.ts innings parser — one of the two parsers the claim
covers — returns 5×3 = 15 outs, not the claimed whole×3 + round(frac×3) = 17. -/
theorem c3_nearest_third_cex :
    jsNumber "5.5" = some (mkRat 11 2)
    ∧ Server.ipToOuts (some "5.5") = some 15
    ∧ jsTrunc (mkRat 11 2) * 3 +
        jsRound (qmulInt (qsubInt (mkRat 11 2) (jsTrunc (mkRat 11 2))) 3) = 17
    ∧ Server.ipOutsOfNum (mkRat 11 2) ≠
        jsTrunc (mkRat 11 2) * 3 +
          jsRound (qmulInt (qsubInt (mkRat 11 2) (jsTrunc (mkRat 11 2))) 3) := by
  decide

/-- C3 amended: only the data-module (pitching loader) parser implements the
nearest-third fallback for fractions outside {.0,.1,.2}; the src/server.ts
parser instead adds 0 outs for such fractions.  Neither rejects the input
(e.g. "5.5" still parses, to 17 outs in the data module). -/
theorem c3_nearest_third_amended :
    (∀ n : ℚ, toFixed 1 (qsubInt n (jsTrunc n)) ∉ ([0, mkRat 1 10, mkRat 2 10] : List ℚ) →
        DataPitching.ipOutsOfNum n = jsTrunc n * 3 +
            jsRound (qmulInt (qsubInt n (jsTrunc n)) 3)
          ∧ Server.ipOutsOfNum n = jsTrunc n * 3)
    ∧ DataPitching.ipToOuts (some "5.5") = some 17 := by
  constructor
  · intro n h
    constructor
    · simp only [DataPitching.ipOutsOfNum]
      rw [if_neg h]
    · have h1 : toFixed 1 (qsubInt n (jsTrunc n)) ≠ mkRat 1 10 := by
        intro he
        exact h (by rw [he]; simp)
      have h2 : toFixed 1 (qsubInt n (jsTrunc n)) ≠ mkRat 2 10 := by
        intro he
        exact h (by rw [he]; simp)
      simp only [Server.ipOutsOfNum]
      rw [if_neg h1, if_neg h2, add_zero]
  · decide

/-- Witness for C3's amended theorem: 5.5 has fraction .5, outside the
expected set, and the fallback/no-fallback equations hold for it. -/
theorem c3_nearest_third_amended_witness :
    toFixed 1 (qsubInt (mkRat 11 2) (jsTrunc (mkRat 11 2))) ∉ ([0, mkRat 1 10, mkRat 2 10] : List ℚ)
    ∧ (DataPitching.ipOutsOfNum (mkRat 11 2) = jsTrunc (mkRat 11 2) * 3 +
          jsRound (qmulInt (qsubInt (mkRat 11 2) (jsTrunc (mkRat 11 2))) 3)
        ∧ Server.ipOutsOfNum (mkRat 11 2) = jsTrunc (mkRat 11 2) * 3) :=
  ⟨by decide, c3_nearest_third_amended.1 (mkRat 11 2) (by decide)⟩

/-- C7: metric alias resolution is total — for every token the result is
defined by trying the exact alias-table match, then the uppercased match,
and otherwise returning the token unchanged; and resolving "OPS+" yields
"ops_plus". -/
theorem c7_normalizeMetric_total (m : String) :
    (Server.metricAliases.lookup m = some (Server.normalizeMetric m)
      ∨ (Server.metricAliases.lookup m = none
          ∧ Server.metricAliases.lookup (jsToUpper m) = some (Server.normalizeMetric m))
      ∨ (Server.metricAliases.lookup m = none
          ∧ Server.metricAliases.lookup (jsToUpper m) = none
          ∧ Server.normalizeMetric m = m))
    ∧ Server.normalizeMetric "OPS+" = "ops_plus" := by
  constructor
  · cases h1 : Server.metricAliases.lookup m with
    | some v =>
      left
      have hm : Server.normalizeMetric m = v := by
        unfold Server.normalizeMetric
        rw [h1]
      rw [hm]
    | none =>
      cases h2 : Server.metricAliases.lookup (jsToUpper m) with
      | some v =>
        right; left
        have hm : Server.normalizeMetric m = v := by
          unfold Server.normalizeMetric
          rw [h1, h2]
        exact ⟨rfl, by rw [hm]⟩
      | none =>
        right; right
        have hm : Server.normalizeMetric m = m := by
          unfold Server.normalizeMetric
          rw [h1, h2]
        exact ⟨rfl, rfl, hm⟩
  · decide

/-- C10: metric alias resolution is idempotent — resolving a resolved token
changes nothing, because every canonical value of the alias table resolves
to itself (directly or through the uppercase fallback). -/
theorem c10_normalizeMetric_idem (s : String) :
    Server.normalizeMetric (Server.normalizeMetric s) = Server.normalizeMetric s := by
  have key : ∀ t v : String, Server.metricAliases.lookup t = some v →
      Server.normalizeMetric v = v := by
    intro t v h
    exact aliasValuesFixed (t, v) (lookup_mem t v _ h)
  cases h1 : Server.metricAliases.lookup s with
  | some v =>
    have hs : Server.normalizeMetric s = v := by
      unfold Server.normalizeMetric
      rw [h1]
    rw [hs]
    exact key s v h1
  | none =>
    cases h2 : Server.metricAliases.lookup (jsToUpper s) with
    | some v =>
      have hs : Server.normalizeMetric s = v := by
        unfold Server.normalizeMetric
        rw [h1, h2]
      rw [hs]
      exact key (jsToUpper s) v h2
    | none =>
      have hs : Server.normalizeMetric s = s := by
        unfold Server.normalizeMetric
        rw [h1, h2]
      rw [hs]
      exact hs

/-- C5 counterexample: "K/BB" resolves to the different canonical key
"so_per_bb", yet no advisory note exists anywhere in the source and the
leaderboard output object carries no warnings list (its only key is `rows`),
so no single-element warnings list is surfaced. -/
theorem c5_alias_note_cex :
    Server.normalizeMetric "K/BB" = "so_per_bb"
    ∧ ("so_per_bb" : String) ≠ "K/BB"
    ∧ (Server.leaderboardOutputB [] "K/BB" .desc 5 none).warnings = none := by
  decide

/-- C5 amended: alias resolution may substitute a different canonical key
(e.g. "K/BB" → "so_per_bb") and never blocks the query, but it attaches no
advisory note, the leaderboard output never contains a warnings list, and the
natural-language phrases the spec describes are not in the alias table at all
(they resolve unchanged). -/
theorem c5_alias_note_amended :
    (∀ (data : List Server.BattingWithTeam) (metric : String) (dir : Server.Direction)
        (limit : ℕ) (qual : Option Server.Qualifier),
      (Server.leaderboardOutputB data metric dir limit qual).warnings = none)
    ∧ Server.normalizeMetric "K/BB" = "so_per_bb"
    ∧ Server.normalizeMetric "wins above replacement" = "wins above replacement"
    ∧ Server.normalizeMetric "the best" = "the best" := by
  exact ⟨fun data metric dir limit qual => rfl, by decide, by decide, by decide⟩

/-- C9 counterexample: the batting-module percentage parser does not return
every finite value exactly as parsed — 0.1234 parses to 617/5000 but is
returned rounded to three decimals (0.123), unlike the number parser. -/
theorem c9_toPct_cex :
    Server.toNum (some "0.1234") = some (mkRat 1234 10000)
    ∧ DataBatting.toPct (some "0.1234") = some (mkRat 123 1000)
    ∧ DataBatting.toPct (some "0.1234") ≠ Server.toNum (some "0.1234") := by
  decide

/-- C9 amended: the server's `toPct` and the pitching module's `toPct` are
exactly the number parser (empty or non-finite input gives null, finite
values returned as parsed, no scaling); the batting module's `toPct`
additionally rounds values ≤ 1 to three decimals (values > 1 pass through),
so `.249` is still preserved by all of them. -/
theorem c9_toPct_amended :
    (∀ s n, jsNumber s = some n → s ≠ "" →
        Server.toPct (some s) = some n
        ∧ DataPitching.toPct (some s) = some n
        ∧ DataBatting.toPct (some s) = some (if 1 < n then n else toFixed 3 n))
    ∧ (∀ v, Server.toPct v = Server.toNum v)
    ∧ (∀ v, DataPitching.toPct v = Server.toNum v)
    ∧ (∀ v, DataBatting.toNum v = Server.toNum v)
    ∧ Server.toPct none = none
    ∧ Server.toPct (some "") = none
    ∧ DataBatting.toPct (some "") = none
    ∧ (∀ s, jsNumber s = none → DataBatting.toPct (some s) = none)
    ∧ DataBatting.toPct (some ".249") = some (mkRat 249 1000) := by
  refine ⟨?_, fun v => rfl, fun v => rfl, fun v => rfl, rfl, by decide, by decide, ?_, by decide⟩
  · intro s n hs hne
    refine ⟨?_, ?_, ?_⟩
    · simp [Server.toPct, hne, hs]
    · simp [DataPitching.toPct, hne, hs]
    · simp [DataBatting.toPct, hne, hs]
  · intro s hs
    by_cases hne : s = ""
    · subst hne; decide
    · simp [DataBatting.toPct, hne, hs]

/-- Witness for C9's amended theorem: the decimal fraction ".249" parses,
is nonempty, and all three percentage parsers return it unchanged. -/
theorem c9_toPct_amended_witness :
    jsNumber ".249" = some (mkRat 249 1000)
    ∧ (".249" : String) ≠ ""
    ∧ (Server.toPct (some ".249") = some (mkRat 249 1000)
        ∧ DataPitching.toPct (some ".249") = some (mkRat 249 1000)
        ∧ DataBatting.toPct (some ".249") =
            some (if 1 < (mkRat 249 1000 : ℚ) then mkRat 249 1000 else toFixed 3 (mkRat 249 1000))) :=
  ⟨by decide, by decide, c9_toPct_amended.1 ".249" (mkRat 249 1000) (by decide) (by decide)⟩

/-! Leaderboard selection lemmas. -/

theorem mem_leaderboardSelectB {data : List Server.BattingWithTeam} {metric : String}
    {dir : Server.Direction} {limit : ℕ} {qual : Option Server.Qualifier}
    {r : Server.BattingWithTeam}
    (h : r ∈ Server.leaderboardSelectB data metric dir limit qual) :
    r ∈ data ∧ Server.qualFilterB qual r = true
      ∧ (Server.metricGetB (Server.normalizeMetric metric) r).isSome = true := by
  simp only [Server.leaderboardSelectB] at h
  have h1 := (List.take_sublist _ _).subset h
  have h2 := (List.perm_insertionSort
    (Server.sortRelB dir (Server.normalizeMetric metric)) _).mem_iff.mp h1
  rw [List.mem_filter] at h2
  obtain ⟨h3, hsome⟩ := h2
  rw [List.mem_filter] at h3
  exact ⟨h3.1, h3.2, hsome⟩

theorem sorted_leaderboardSelectB (data : List Server.BattingWithTeam) (metric : String)
    (dir : Server.Direction) (limit : ℕ) (qual : Option Server.Qualifier) :
    List.Sorted (Server.sortRelB dir (Server.normalizeMetric metric))
      (Server.leaderboardSelectB data metric dir limit qual) := by
  simp only [Server.leaderboardSelectB]
  exact List.Pairwise.sublist (List.take_sublist _ _) (List.sorted_insertionSort _ _)

/-- C1: every batting leaderboard call with descending direction, a limit and
a positive `minPA` qualifier returns at most `limit` rows, only rows with
`pa ≥ minPA`, no row with a null resolved metric, and rows sorted
non-increasing by the resolved metric value; and "OPS+" resolves to
`ops_plus`, so the spec's example call is an instance.  (The hypothesis
restricts the resolved metric to the numeric statistic fields — the only
rankable metrics of a batting row.) -/
theorem c1_leaderboard_desc (data : List Server.BattingWithTeam) (metric : String)
    (q : ℚ) (limit : ℕ) (hq : 0 < q)
    (hkey : Server.normalizeMetric metric ∈ Server.battingNumericKeys) :
    (Server.leaderboardB data metric Server.Direction.desc limit
        (some ⟨some q, none⟩)).length ≤ limit
    ∧ (∀ o ∈ Server.leaderboardB data metric Server.Direction.desc limit
          (some ⟨some q, none⟩), ∃ p, o.pa = some p ∧ q ≤ p)
    ∧ (∀ o ∈ Server.leaderboardB data metric Server.Direction.desc limit
          (some ⟨some q, none⟩), o.value.isSome = true)
    ∧ List.Sorted (fun x y => y ≤ x)
        ((Server.leaderboardB data metric Server.Direction.desc limit
            (some ⟨some q, none⟩)).map (fun o => o.value.getD 0))
    ∧ Server.normalizeMetric "OPS+" = "ops_plus" := by
  refine ⟨?_, ?_, ?_, ?_, by decide⟩
  · rw [Server.leaderboardB, List.length_map]
    simp only [Server.leaderboardSelectB]
    exact List.length_take_le _ _
  · intro o ho
    rw [Server.leaderboardB, List.mem_map] at ho
    obtain ⟨r, hr, rfl⟩ := ho
    have hqual := (mem_leaderboardSelectB hr).2.1
    simp only [Server.qualFilterB] at hqual
    rw [if_neg hq.ne'] at hqual
    have hle : q ≤ r.pa.getD 0 := of_decide_eq_true hqual
    cases hpa : r.pa with
    | none =>
      rw [hpa] at hle
      exact absurd (lt_of_lt_of_le hq hle) (lt_irrefl 0)
    | some p =>
      rw [hpa] at hle
      exact ⟨p, by simpa using hpa, hle⟩
  · intro o ho
    rw [Server.leaderboardB, List.mem_map] at ho
    obtain ⟨r, hr, rfl⟩ := ho
    exact (mem_leaderboardSelectB hr).2.2
  · rw [Server.leaderboardB, List.map_map]
    have hs := sorted_leaderboardSelectB data metric Server.Direction.desc limit
      (some ⟨some q, none⟩)
    exact List.Pairwise.map _ (fun a b hab => hab) hs

/-- Witness for C1: the spec's example call (metric "OPS+", descending,
limit 5, minPA 400) on a concrete three-row dataset. -/
theorem c1_leaderboard_desc_witness :
    ((0 : ℚ) < 400 ∧ Server.normalizeMetric "OPS+" ∈ Server.battingNumericKeys)
    ∧ ((Server.leaderboardB demoBatting "OPS+" Server.Direction.desc 5
          (some ⟨some 400, none⟩)).length ≤ 5
      ∧ (∀ o ∈ Server.leaderboardB demoBatting "OPS+" Server.Direction.desc 5
            (some ⟨some 400, none⟩), ∃ p, o.pa = some p ∧ (400 : ℚ) ≤ p)
      ∧ (∀ o ∈ Server.leaderboardB demoBatting "OPS+" Server.Direction.desc 5
            (some ⟨some 400, none⟩), o.value.isSome = true)
      ∧ List.Sorted (fun x y => y ≤ x)
          ((Server.leaderboardB demoBatting "OPS+" Server.Direction.desc 5
              (some ⟨some 400, none⟩)).map (fun o => o.value.getD 0))
      ∧ Server.normalizeMetric "OPS+" = "ops_plus") :=
  ⟨⟨by decide, by decide⟩,
    c1_leaderboard_desc demoBatting "OPS+" 400 5 (by decide) (by decide)⟩

/-! Loader lemmas for the team-totals exclusion. -/

theorem loadBattingCSV_no_tt (raws : List RawRow) :
    ∀ r ∈ Server.loadBattingCSV raws, isTeamTotal r.player_raw = false := by
  intro r hr
  rw [Server.loadBattingCSV, List.mem_filterMap] at hr
  obtain ⟨rec, _, heq⟩ := hr
  simp only at heq
  split at heq
  · exact absurd heq (by simp)
  · rename_i htt
    obtain rfl := Option.some.inj heq
    simpa using htt

theorem loadPitchingCSV_no_tt (raws : List RawRow) :
    ∀ r ∈ Server.loadPitchingCSV raws, isTeamTotal r.player_raw = false := by
  intro r hr
  rw [Server.loadPitchingCSV, List.mem_filterMap] at hr
  obtain ⟨rec, _, heq⟩ := hr
  simp only at heq
  split at heq
  · exact absurd heq (by simp)
  · rename_i htt
    obtain rfl := Option.some.inj heq
    simpa using htt

theorem dataLoadBattingCSV_no_tt (raws : List RawRow) :
    ∀ r ∈ DataBatting.loadBattingCSV raws, isTeamTotal r.player_raw = false := by
  intro r hr
  rw [DataBatting.loadBattingCSV, List.mem_filter] at hr
  obtain ⟨hmem, hflag⟩ := hr
  rw [List.mem_map] at hmem
  obtain ⟨rec, _, rfl⟩ := hmem
  simpa using hflag

theorem tagTeamB_no_tt {t : String} {rows : List Server.BattingRow}
    (hrows : ∀ r ∈ rows, isTeamTotal r.player_raw = false) :
    ∀ r ∈ Server.tagTeamB t rows, isTeamTotal r.player_raw = false := by
  intro r hr
  rw [Server.tagTeamB, List.mem_map] at hr
  obtain ⟨b, hb, rfl⟩ := hr
  exact hrows b hb

theorem tagTeamP_no_tt {t : String} {rows : List Server.PitchingRow}
    (hrows : ∀ r ∈ rows, isTeamTotal r.player_raw = false) :
    ∀ r ∈ Server.tagTeamP t rows, isTeamTotal r.player_raw = false := by
  intro r hr
  rw [Server.tagTeamP, List.mem_map] at hr
  obtain ⟨b, hb, rfl⟩ := hr
  exact hrows b hb

theorem mem_leaderboardSelectP {data : List Server.PitchingWithTeam} {metric : String}
    {dir : Server.Direction} {limit : ℕ} {qual : Option Server.Qualifier}
    {r : Server.PitchingWithTeam}
    (h : r ∈ Server.leaderboardSelectP data metric dir limit qual) : r ∈ data := by
  simp only [Server.leaderboardSelectP] at h
  have h1 := (List.take_sublist _ _).subset h
  have h2 := (List.perm_insertionSort
    (Server.sortRelP dir (Server.normalizeMetric metric)) _).mem_iff.mp h1
  rw [List.mem_filter] at h2
  have h3 := h2.1
  rw [List.mem_filter] at h3
  exact h3.1

theorem mem_playerStatsSelectB {data : List Server.BattingWithTeam} {player : String}
    {filt : Server.BattingWithTeam → Bool} {r : Server.BattingWithTeam}
    (h : r ∈ Server.playerStatsSelectB data player filt) : r ∈ data := by
  rw [Server.playerStatsSelectB, List.mem_filter] at h
  have h1 := h.1
  rw [List.mem_filter] at h1
  exact h1.1

theorem mem_playerStatsSelectP {data : List Server.PitchingWithTeam} {player : String}
    {filt : Server.PitchingWithTeam → Bool} {r : Server.PitchingWithTeam}
    (h : r ∈ Server.playerStatsSelectP data player filt) : r ∈ data := by
  rw [Server.playerStatsSelectP, List.mem_filter] at h
  have h1 := h.1
  rw [List.mem_filter] at h1
  exact h1.1

/-- C4: rows whose raw player-name field case-insensitively contains
"team totals" are excluded by the batting and pitching loaders (in both
source revisions), and therefore appear in no leaderboard or player-stats
selection drawn from the loaded data, for any arguments.  (The third query
operation, `teams`, returns team codes only, so no row can appear in it.) -/
theorem c4_team_totals_excluded (raws : List RawRow) (t player metric : String)
    (dir : Server.Direction) (limit : ℕ) (qual : Option Server.Qualifier)
    (filtB : Server.BattingWithTeam → Bool) (filtP : Server.PitchingWithTeam → Bool) :
    ((Server.loadBattingCSV raws).all (fun r => !(isTeamTotal r.player_raw))) = true
    ∧ ((Server.loadPitchingCSV raws).all (fun r => !(isTeamTotal r.player_raw))) = true
    ∧ ((DataBatting.loadBattingCSV raws).all (fun r => !(isTeamTotal r.player_raw))) = true
    ∧ ((Server.leaderboardSelectB (Server.tagTeamB t (Server.loadBattingCSV raws))
          metric dir limit qual).all (fun r => !(isTeamTotal r.player_raw))) = true
    ∧ ((Server.leaderboardSelectP (Server.tagTeamP t (Server.loadPitchingCSV raws))
          metric dir limit qual).all (fun r => !(isTeamTotal r.player_raw))) = true
    ∧ ((Server.playerStatsSelectB (Server.tagTeamB t (Server.loadBattingCSV raws))
          player filtB).all (fun r => !(isTeamTotal r.player_raw))) = true
    ∧ ((Server.playerStatsSelectP (Server.tagTeamP t (Server.loadPitchingCSV raws))
          player filtP).all (fun r => !(isTeamTotal r.player_raw))) = true := by
  refine ⟨?_, ?_, ?_, ?_, ?_, ?_, ?_⟩ <;> rw [List.all_eq_true]
  · intro r hr
    simpa using loadBattingCSV_no_tt raws r hr
  · intro r hr
    simpa using loadPitchingCSV_no_tt raws r hr
  · intro r hr
    simpa using dataLoadBattingCSV_no_tt raws r hr
  · intro r hr
    simpa using tagTeamB_no_tt (loadBattingCSV_no_tt raws) r ((mem_leaderboardSelectB hr).1)
  · intro r hr
    simpa using tagTeamP_no_tt (loadPitchingCSV_no_tt raws) r (mem_leaderboardSelectP hr)
  · intro r hr
    simpa using tagTeamB_no_tt (loadBattingCSV_no_tt raws) r (mem_playerStatsSelectB hr)
  · intro r hr
    simpa using tagTeamP_no_tt (loadPitchingCSV_no_tt raws) r (mem_playerStatsSelectP hr)

/-! Position-filter lemmas (for the spec-modelled position argument). -/

theorem mem_leaderboardSelectBPos {data : List Server.BattingWithTeam} {metric : String}
    {dir : Server.Direction} {limit : ℕ} {qual : Option Server.Qualifier}
    {tpos : String} {r : Server.BattingWithTeam}
    (h : r ∈ leaderboardSelectBPos data metric dir limit qual (some tpos)) :
    positionMatches tpos r = true := by
  simp only [leaderboardSelectBPos] at h
  have h1 := (List.take_sublist _ _).subset h
  have h2 := (List.perm_insertionSort
    (Server.sortRelB dir (Server.normalizeMetric metric)) _).mem_iff.mp h1
  rw [List.mem_filter] at h2
  have h3 := h2.1
  rw [List.mem_filter] at h3
  exact h3.2

/-- C6: under the spec-modelled position filter, a batting leaderboard call
with position "2B" returns only rows whose parsed position list contains
"2B", and position "OF" returns only rows whose parsed positions meet
{LF, CF, RF}; the row positions are parsed by the source's
`splitPositions`. -/
theorem c6_position_filter (data : List Server.BattingWithTeam) (metric : String)
    (dir : Server.Direction) (limit : ℕ) (qual : Option Server.Qualifier) :
    (∀ r ∈ leaderboardSelectBPos data metric dir limit qual (some "2B"),
        "2B" ∈ DataBatting.splitPositions (r.pos_raw.getD ""))
    ∧ (∀ r ∈ leaderboardSelectBPos data metric dir limit qual (some "OF"),
        ∃ p ∈ DataBatting.splitPositions (r.pos_raw.getD ""),
          p ∈ (["LF", "CF", "RF"] : List String)) := by
  constructor
  · intro r hr
    have hm := mem_leaderboardSelectBPos hr
    rw [positionMatches, List.any_eq_true] at hm
    obtain ⟨p, hp, hcont⟩ := hm
    have hpt : positionTargets "2B" = ["2B"] := by decide
    rw [hpt] at hcont
    have hpe : p = "2B" := by simpa using hcont
    rwa [hpe] at hp
  · intro r hr
    have hm := mem_leaderboardSelectBPos hr
    rw [positionMatches, List.any_eq_true] at hm
    obtain ⟨p, hp, hcont⟩ := hm
    refine ⟨p, hp, ?_⟩
    have hpt : positionTargets "OF" = ["LF", "CF", "RF"] := by decide
    rw [hpt] at hcont
    simpa using hcont

/-- Witness for C6: on the sample dataset, the "2B" call selects the second
baseman and the "OF" call selects the left fielder, with the stated
position-membership conclusions. -/
theorem c6_position_filter_witness :
    ("2B" ∈ DataBatting.splitPositions ((demoRowA.pos_raw).getD ""))
    ∧ ∃ p ∈ DataBatting.splitPositions ((demoRowB.pos_raw).getD ""),
        p ∈ (["LF", "CF", "RF"] : List String) :=
  ⟨(c6_position_filter demoBatting "OPS+" Server.Direction.desc 5 none).1 demoRowA
     (by decide),
   (c6_position_filter demoBatting "OPS+" Server.Direction.desc 5 none).2 demoRowB
     (by decide)⟩

/-! Lemmas about trimming, membership and first-occurrence removal, used to
settle the player-marker parser claim. -/

theorem mem_dropWhile_iff {p : Char → Bool} {c : Char} (hc : p c = false) :
    ∀ l : List Char, c ∈ l.dropWhile p ↔ c ∈ l := by
  intro l
  induction l with
  | nil => simp
  | cons x xs ih =>
    by_cases hx : p x = true
    · rw [List.dropWhile_cons, if_pos hx, ih]
      constructor
      · exact fun h => List.mem_cons_of_mem _ h
      · intro h
        rcases List.mem_cons.mp h with h | h
        · rw [h, hx] at hc
          cases hc
        · exact h
    · rw [List.dropWhile_cons, if_neg hx]

theorem mem_trimChars_iff {c : Char} (hc : wsp c = false) (l : List Char) :
    c ∈ trimChars l ↔ c ∈ l := by
  unfold trimChars dropTrailing dropLeading
  rw [List.mem_reverse, mem_dropWhile_iff hc, List.mem_reverse, mem_dropWhile_iff hc]

theorem removeFirst_eq_filter {c : Char} :
    ∀ l : List Char, l.count c ≤ 1 → removeFirst c l = l.filter (fun x => !(x == c)) := by
  intro l
  induction l with
  | nil => intro _; rfl
  | cons x xs ih =>
    intro h
    by_cases hx : x = c
    · subst hx
      rw [removeFirst, if_pos rfl]
      rw [List.count_cons] at h
      simp only [beq_self_eq_true, if_true] at h
      have hzero : xs.count x = 0 := by omega
      have hnot : x ∉ xs := List.count_eq_zero.mp hzero
      rw [List.filter_cons_of_neg (by simp)]
      symm
      rw [List.filter_eq_self]
      intro a ha
      have hne : a ≠ x := fun hax => hnot (hax ▸ ha)
      simpa using hne
    · rw [removeFirst, if_neg hx]
      have hbx : (x == c) = false := by simpa using hx
      rw [List.count_cons, hbx] at h
      have h2 : xs.count c ≤ 1 := by simpa using h
      rw [ih h2, List.filter_cons_of_pos (by simp [hbx])]

theorem dropWhile_append_of_all {p : Char → Bool} :
    ∀ {a : List Char}, (∀ x ∈ a, p x = true) → ∀ l, (a ++ l).dropWhile p = l.dropWhile p := by
  intro a
  induction a with
  | nil => intro _ l; rfl
  | cons x xs ih =>
    intro ha l
    have hx : p x = true := ha x (List.mem_cons_self _ _)
    rw [List.cons_append, List.dropWhile_cons, if_pos hx]
    exact ih (fun y hy => ha y (List.mem_cons_of_mem _ hy)) l

theorem dropLeading_append_ws {a : List Char} (ha : ∀ x ∈ a, wsp x = true)
    (l : List Char) : dropLeading (a ++ l) = dropLeading l :=
  dropWhile_append_of_all ha l

theorem dropTrailing_append_ws {b : List Char} (hb : ∀ x ∈ b, wsp x = true)
    (l : List Char) : dropTrailing (l ++ b) = dropTrailing l := by
  unfold dropTrailing
  rw [List.reverse_append,
      dropWhile_append_of_all (fun x hx => hb x (List.mem_reverse.mp hx))]

theorem dropLeading_eq_nil_of_ws {b : List Char} (hb : ∀ x ∈ b, wsp x = true) :
    dropLeading b = [] := by
  have h := dropLeading_append_ws hb ([] : List Char)
  simpa [dropLeading] using h

theorem trimChars_append_ws {a b : List Char} (ha : ∀ x ∈ a, wsp x = true)
    (hb : ∀ x ∈ b, wsp x = true) (m : List Char) :
    trimChars (a ++ m ++ b) = trimChars m := by
  unfold trimChars
  rw [List.append_assoc, dropLeading_append_ws ha]
  show dropTrailing (List.dropWhile wsp (m ++ b)) = dropTrailing (dropLeading m)
  rw [List.dropWhile_append]
  by_cases hemp : (m.dropWhile wsp).isEmpty = true
  · rw [if_pos hemp]
    rw [show List.dropWhile wsp b = [] from dropLeading_eq_nil_of_ws hb]
    have hnil : dropLeading m = [] := by
      unfold dropLeading
      exact List.isEmpty_iff.mp hemp
    rw [hnil]
  · rw [if_neg hemp]
    exact dropTrailing_append_ws hb _

theorem trim_decomp (l : List Char) :
    ∃ a b, (∀ x ∈ a, wsp x = true) ∧ (∀ x ∈ b, wsp x = true)
      ∧ l = a ++ trimChars l ++ b := by
  refine ⟨l.takeWhile wsp, ((dropLeading l).reverse.takeWhile wsp).reverse,
    fun x hx => List.mem_takeWhile_imp hx,
    fun x hx => List.mem_takeWhile_imp (List.mem_reverse.mp hx), ?_⟩
  conv_lhs => rw [← List.takeWhile_append_dropWhile wsp l]
  rw [List.append_assoc]
  congr 1
  show dropLeading l = trimChars l ++ ((dropLeading l).reverse.takeWhile wsp).reverse
  conv_lhs => rw [← List.reverse_reverse (dropLeading l),
    ← List.takeWhile_append_dropWhile wsp (dropLeading l).reverse]
  rw [List.reverse_append]
  rfl

theorem trimChars_filter {p : Char → Bool} (hp : ∀ c, wsp c = true → p c = true)
    (l : List Char) :
    trimChars ((trimChars l).filter p) = trimChars (l.filter p) := by
  obtain ⟨a, b, ha, hb, hdecomp⟩ := trim_decomp l
  conv_rhs => rw [hdecomp]
  rw [List.filter_append, List.filter_append,
      List.filter_eq_self.mpr (fun x hx => hp x (ha x hx)),
      List.filter_eq_self.mpr (fun x hx => hp x (hb x hx)),
      trimChars_append_ws ha hb]

theorem trimChars_sublist (l : List Char) : (trimChars l).Sublist l := by
  unfold trimChars dropTrailing dropLeading
  have h1 : (((l.dropWhile wsp).reverse.dropWhile wsp).reverse).Sublist
      (((l.dropWhile wsp).reverse).reverse) :=
    List.reverse_sublist.mpr (List.dropWhile_sublist _)
  rw [List.reverse_reverse] at h1
  exact h1.trans (List.dropWhile_sublist _)

theorem wsp_marker (c : Char) (hw : wsp c = true) :
    (!(c == '*') && !(c == '#')) = true := by
  have h1 : c ≠ '*' := by
    rintro rfl
    exact absurd hw (by decide)
  have h2 : c ≠ '#' := by
    rintro rfl
    exact absurd hw (by decide)
  simp [h1, h2]

/-- C8 counterexample: on the raw name "**" the parser produces the name
"*" (JS `replace` removes only the first occurrence of the pattern), while
the claim's strip-all-markers-and-trim transformation produces "". -/
theorem c8_clean_player_cex :
    Server.cleanPlayer (some "**") = ⟨"*", some "L"⟩
    ∧ stripAllMarkers "**" = ""
    ∧ (Server.cleanPlayer (some "**")).name ≠ stripAllMarkers "**" := by
  decide

/-- C8 amended: `bats` is as claimed ("L" when a `*` is present in the raw
name, else "S" when a `#` is, else null, with `*` checked first), but the
name removes only the first occurrence of `*` and of `#`; for raw names
containing at most one of each marker (the source data's mutually exclusive
markers) this coincides with stripping all markers and trimming, and the
claim's two examples hold. -/
theorem c8_clean_player_amended :
    (∀ raw : Option String,
      (Server.cleanPlayer raw).bats =
          (if '*' ∈ (raw.getD "").data then some "L"
           else if '#' ∈ (raw.getD "").data then some "S" else none)
      ∧ ((raw.getD "").data.count '*' ≤ 1 → (raw.getD "").data.count '#' ≤ 1 →
          (Server.cleanPlayer raw).name = stripAllMarkers (raw.getD "")))
    ∧ Server.cleanPlayer (some "Juan Soto*") = ⟨"Juan Soto", some "L"⟩
    ∧ Server.cleanPlayer (some "Starling Marte#") = ⟨"Starling Marte", some "S"⟩ := by
  refine ⟨?_, by decide, by decide⟩
  intro raw
  constructor
  · show (if '*' ∈ trimChars (raw.getD "").data then some "L"
          else if '#' ∈ trimChars (raw.getD "").data then some "S" else none) = _
    simp only [mem_trimChars_iff (show wsp '*' = false by decide),
      mem_trimChars_iff (show wsp '#' = false by decide)]
  · intro h1 h2
    show String.mk (trimChars (removeFirst '#'
        (removeFirst '*' (trimChars (raw.getD "").data)))) = stripAllMarkers (raw.getD "")
    have hc1 : (trimChars (raw.getD "").data).count '*' ≤ 1 :=
      le_trans ((trimChars_sublist _).count_le '*') h1
    rw [removeFirst_eq_filter _ hc1]
    have hc2 : ((trimChars (raw.getD "").data).filter (fun x => !(x == '*'))).count '#' ≤ 1 :=
      le_trans ((List.filter_sublist _).count_le '#')
        (le_trans ((trimChars_sublist _).count_le '#') h2)
    rw [removeFirst_eq_filter _ hc2]
    rw [List.filter_filter]
    have hswap : (fun a => (!(a == '#')) && (!(a == '*')))
        = (fun c => (!(c == '*')) && (!(c == '#'))) := by
      funext a
      exact Bool.and_comm _ _
    rw [hswap]
    rw [stripAllMarkers]
    congr 1
    exact trimChars_filter wsp_marker _

/-- Witness for C8's amended theorem: "Juan Soto*" carries one `*` and no
`#`, and its parsed name equals the strip-all-markers form. -/
theorem c8_clean_player_amended_witness :
    ("Juan Soto*".data.count '*' ≤ 1) ∧ ("Juan Soto*".data.count '#' ≤ 1)
    ∧ (Server.cleanPlayer (some "Juan Soto*")).name = stripAllMarkers "Juan Soto*" :=
  ⟨by decide, by decide,
    (c8_clean_player_amended.1 (some "Juan Soto*")).2 (by decide) (by decide)⟩
